import Mathlib

/-!
Verification of the commit-metadata resolution core of gitui
(`asyncgit/src/sync/commits_info.rs`) and of the logging bootstrap of
`src/args.rs`, as a shallow embedding in Lean.

Modelling conventions:
* Rust strings are `List Char`; byte sequences that the code decodes with
  `String::from_utf8_lossy` are represented by their (lossy) decoding, which is
  the same for both backends since both decode the same raw bytes.
* The unicode display-width table of the `unicode-width` crate is abstracted
  as an arbitrary function `w : Char → Nat`; every theorem quantifies over it.
* `git2::Oid` and `gix::ObjectId` are 20-byte arrays; bytes are `Fin 256`.
* Fallible operations return `Except GitError` / `Option`, with Rust panics
  (`expect`, `from_bytes_or_panic`) modelled as the `none` branch of an
  `Option`-returning conversion.
-/

set_option autoImplicit false

namespace GituiSpec

/-! ## Rust string primitives used by `commits_info.rs` -/

/-- The `White_Space` predicate behind Rust `char::is_whitespace`
(used by `str::trim`). -/
def rustIsWhitespace (c : Char) : Bool :=
  c == ' ' || c == '\t' || c == '\n' || c == '\r' ||
  c.val == 0x0b || c.val == 0x0c || c.val == 0x85 || c.val == 0xa0 ||
  c.val == 0x1680 || (0x2000 ≤ c.val && c.val ≤ 0x200a) ||
  c.val == 0x2028 || c.val == 0x2029 || c.val == 0x202f ||
  c.val == 0x205f || c.val == 0x3000

/-- Rust `str::trim`: drop leading and trailing whitespace. -/
def trim (s : List Char) : List Char :=
  ((s.dropWhile rustIsWhitespace).reverse.dropWhile rustIsWhitespace).reverse

/-- Rust `msg.lines().next().unwrap_or_default()`: the text up to the first
newline; when a newline follows, a carriage return directly before it is
stripped (a line terminator is `\n` or `\r\n`). -/
def firstLine (s : List Char) : List Char :=
  let t := s.takeWhile (fun c => c != '\n')
  if t.length < s.length then
    if t.getLast? = some '\r' then t.dropLast else t
  else t

/-- Total display width of a string under width table `w`
(`UnicodeWidthStr::width`, with control characters counting 0,
folded into `w`). -/
def widthSum (w : Char → Nat) (s : List Char) : Nat :=
  (s.map w).sum

/-- The `unicode-truncate` crate's `unicode_truncate(limit).0`: the longest
prefix whose total display width does not exceed `limit`; a character that
would overflow the budget is dropped whole, never split. -/
def unicodeTruncate (w : Char → Nat) (limit : Nat) : List Char → List Char
  | [] => []
  | c :: cs =>
    if w c ≤ limit then c :: unicodeTruncate w (limit - w c) cs else []

/-- `get_message` (commits_info.rs, lines 188-202): lossy-decode (already
folded into the `List Char` argument), trim; with a limit, keep only the
first line and unicode-truncate it to `limit` display columns. -/
def get_message (w : Char → Nat) (message_bytes : List Char)
    (message_limit : Option Nat) : List Char :=
  let msg := trim message_bytes
  match message_limit with
  | none => msg
  | some limit => unicodeTruncate w limit (firstLine msg)

/-- `gix_get_message` (commits_info.rs, lines 206-220): same shape as
`get_message`, reading the message through gix's `CommitRef` (whose
`BString` rendering is the same lossy decoding of the same bytes). -/
def gix_get_message (w : Char → Nat) (message : List Char)
    (message_limit : Option Nat) : List Char :=
  let message := trim message
  match message_limit with
  | none => message
  | some limit => unicodeTruncate w limit (firstLine message)

/-! ## Identifier types: `git2::Oid`, `gix::ObjectId`, `CommitId` -/

/-- A raw byte. -/
abbrev Byte := Fin 256

/-- `git2::Oid`: exactly 20 raw bytes. -/
abbrev Oid := { bytes : List Byte // bytes.length = 20 }

/-- `gix::ObjectId` (SHA-1 variant): exactly 20 raw bytes. -/
abbrev GixObjectId := { bytes : List Byte // bytes.length = 20 }

/-- `Oid::from_bytes`: succeeds exactly on 20-byte input. -/
def Oid.from_bytes (b : List Byte) : Option Oid :=
  if h : b.length = 20 then some ⟨b, h⟩ else none

/-- `gix::ObjectId::from_bytes_or_panic`: the panic is the `none` branch. -/
def GixObjectId.from_bytes_or_panic (b : List Byte) : Option GixObjectId :=
  if h : b.length = 20 then some ⟨b, h⟩ else none

/-- `pub struct CommitId(Oid)` (commits_info.rs, line 19). -/
structure CommitId where
  oid : Oid
deriving DecidableEq

/-- `impl From(gix::ObjectId) for CommitId` (lines 90-97):
`Oid::from_bytes(object_id.as_bytes()).expect(..)`; the `expect` panic is the
`none` branch. -/
def commitId_from_gix (object_id : GixObjectId) : Option CommitId :=
  (Oid.from_bytes object_id.val).map CommitId.mk

/-- `impl From(CommitId) for gix::ObjectId` (lines 99-103):
`from_bytes_or_panic(id.0.as_bytes())`. -/
def gix_from_commitId (id : CommitId) : Option GixObjectId :=
  GixObjectId.from_bytes_or_panic id.oid.val

/-! ## Repository state, mailmap, and the two resolver paths -/

/-- The raw author identity of a stored commit. `name` is the lossy UTF-8
decoding of the raw name bytes (what gix's `BString` rendering yields);
`nameValidUtf8` records whether the raw bytes were valid UTF-8, which is
what decides whether `git2::Signature::name()` returns `Some`. -/
structure RawAuthor where
  nameValidUtf8 : Bool
  name : List Char
  email : List Char
deriving DecidableEq

/-- A stored commit object: lossy-decoded message bytes, raw author
identity, and the committer timestamp in seconds since epoch (what both
`git2::Commit::time().seconds()` and gix's `CommitRef::time().seconds`
report). -/
structure RawCommit where
  message : List Char
  author : RawAuthor
  time : Int
deriving DecidableEq

/-- An opened repository's object store, as both backends see it:
`find_commit` succeeds exactly on the identifiers mapped to `some`. -/
def Repo := CommitId → Option RawCommit

/-- One mailmap entry, per the two line forms
`Proper Name (proper@email) (commit@email)` (email-only match,
`commit_name = none`) and
`Proper Name (proper@email) Commit Name (commit@email)`. -/
structure MailmapEntry where
  proper_name : List Char
  proper_email : List Char
  commit_name : Option (List Char)
  commit_email : List Char
deriving DecidableEq

/-- A loaded mailmap. -/
abbrev Mailmap := List MailmapEntry

/-- Modelled from the spec: the mailmap lookup shared by git2's mailmap
(`Mailmap::resolve_signature`, reached through `get_author_of_commit`,
whose source `sync/commit_details.rs` is not among the provided files) and
gix's `Mailmap::try_resolve`; section 6 of the spec: entries are "matched
by exact name+email first, falling back to email-only match"; `none` means
no entry applies and the raw identity is kept. -/
def mailmapResolve (mm : Mailmap) (name email : List Char) :
    Option (List Char × List Char) :=
  match mm.find? (fun e =>
      e.commit_name == some name && e.commit_email == email) with
  | some e => some (e.proper_name, e.proper_email)
  | none =>
    match mm.find? (fun e =>
        e.commit_name == none && e.commit_email == email) with
    | some e => some (e.proper_name, e.proper_email)
    | none => none

/-- Modelled from the spec: `get_author_of_commit` (defined in
`sync/commit_details.rs`, which is not among the provided files) queries
the mailmap for the commit's raw author identity and keeps the raw
identity when no entry applies (spec section 4.2, step 4). A mailmap-
provided name comes from the parsed mailmap file and is valid UTF-8. -/
def get_author_of_commit (author : RawAuthor) (mm : Mailmap) : RawAuthor :=
  match mailmapResolve mm author.name author.email with
  | some p => { nameValidUtf8 := true, name := p.1, email := p.2 }
  | none => author

/-- `git2::Signature::name()`: `Some` exactly when the raw name bytes are
valid UTF-8. -/
def signature_name (a : RawAuthor) : Option (List Char) :=
  if a.nameValidUtf8 then some a.name else none

/-- The literal placeholder `String::from("<unknown>")`. -/
def unknownAuthor : List Char := "<unknown>".toList

/-- `pub struct CommitInfo` (commits_info.rs, lines 106-116). -/
structure CommitInfo where
  message : List Char
  time : Int
  author : List Char
  id : CommitId
deriving DecidableEq

/-- Errors surfaced by the resolution layer; object lookup on a missing
identifier yields `objectNotFound`. -/
inductive GitError where
  | objectNotFound
deriving DecidableEq

/-- `repo.find_commit((*id).into())` for one identifier: the returned
`Commit` object is represented by the pair of its own id (`c.id()`, which
equals the looked-up id) and its stored data. -/
def find_commit (repo : Repo) (id : CommitId) :
    Except GitError (CommitId × RawCommit) :=
  match repo id with
  | some c => .ok (id, c)
  | none => .error .objectNotFound

/-- Rust `collect::(Result(Vec, Error))` over a list of results: the first
error short-circuits the whole collection. -/
def collectResults {E A : Type} : List (Except E A) → Except E (List A)
  | [] => .ok []
  | .error e :: _ => .error e
  | .ok a :: rest => (collectResults rest).map (a :: ·)

/-- The record built for one found commit inside `get_commits_info`
(lines 136-150): truncated message, mailmap-resolved author with the
`<unknown>` fallback of `map_or_else`, commit time, and the commit's id. -/
def toCommitInfo (mm : Mailmap) (limit : Nat) (w : Char → Nat)
    (id : CommitId) (c : RawCommit) : CommitInfo :=
  { message := get_message w c.message (some limit)
    author :=
      match signature_name (get_author_of_commit c.author mm) with
      | none => unknownAuthor
      | some n => n
    time := c.time
    id := id }

/-- `get_commits_info` (commits_info.rs, lines 119-154): resolve every
identifier through backend A (git2), failing the whole call on the first
missing object, then map each found commit to its `CommitInfo`. The opened
repository and its freshly loaded mailmap are the `repo` and `mm`
arguments; `w` is the display-width table. -/
def get_commits_info (repo : Repo) (mm : Mailmap) (ids : List CommitId)
    (message_length_limit : Nat) (w : Char → Nat) :
    Except GitError (List CommitInfo) :=
  match collectResults (ids.map (find_commit repo)) with
  | .error e => .error e
  | .ok commits =>
    .ok (commits.map (fun ic =>
      toCommitInfo mm message_length_limit w ic.1 ic.2))

/-- `get_commit_info` (commits_info.rs, lines 157-184): resolve one
identifier through backend B (gix); no message limit is applied
(`gix_get_message(&commit_ref, None)`); the author is
`mailmap.try_resolve(author)` with fallback to the raw (lossy-rendered)
name, and the time and id come from the same decoded commit. -/
def get_commit_info (repo : Repo) (mm : Mailmap) (commit_id : CommitId)
    (w : Char → Nat) : Except GitError CommitInfo :=
  match repo commit_id with
  | none => .error .objectNotFound
  | some c =>
    let message := gix_get_message w c.message none
    let author :=
      match mailmapResolve mm c.author.name c.author.email with
      | none => c.author.name
      | some s => s.1
    .ok { message := message, author := author, time := c.time,
          id := commit_id }

/-! ## CLI bootstrap: the logging options of `src/args.rs` -/

/-- The parsed command line as far as logging is concerned: whether the
`--logging` flag was passed, and the value of `--logfile` when present. -/
structure ArgMatches where
  logging_flag_given : Bool
  logfile : Option (List Char)
deriving DecidableEq

/-- `arg_matches.get_flag("logging")` under the clap configuration of
`app()` (args.rs, lines 90-101): the flag's value defaults to `true`
whenever `logfile` is present (`default_value_if("logfile",
ArgPredicate::IsPresent, "true")`), and is otherwise the flag itself. -/
def get_flag_logging (m : ArgMatches) : Bool :=
  m.logging_flag_given || m.logfile.isSome

/-- The log path chosen by `setup_logging` (args.rs, lines 132-139): the
override when given, else `(cache dir)/gitui.log`. -/
def setup_logging_path (cache_dir : List Char)
    (path_override : Option (List Char)) : List Char :=
  match path_override with
  | some path => path
  | none => cache_dir ++ "/gitui.log".toList

/-- The logging decision of `process_cmdline` (args.rs, lines 30-33):
`setup_logging` runs, on the logfile override when present, exactly when
`get_flag("logging")` holds; `none` means no logging is set up. -/
def process_cmdline_logging (cache_dir : List Char) (m : ArgMatches) :
    Option (List Char) :=
  if get_flag_logging m then some (setup_logging_path cache_dir m.logfile)
  else none

/-! ## Basic lemmas about the text primitives -/

theorem unicodeTruncate_width_le (w : Char → Nat) :
    ∀ (limit : Nat) (s : List Char),
      widthSum w (unicodeTruncate w limit s) ≤ limit := by
  intro limit s
  induction s generalizing limit with
  | nil => simp [unicodeTruncate, widthSum]
  | cons c cs ih =>
    by_cases h : w c ≤ limit
    · simp only [unicodeTruncate, if_pos h, widthSum, List.map_cons,
        List.sum_cons]
      have := ih (limit - w c)
      simp only [widthSum] at this
      omega
    · simp [unicodeTruncate, if_neg h, widthSum]

theorem unicodeTruncate_of_width_le (w : Char → Nat) :
    ∀ (limit : Nat) (s : List Char), widthSum w s ≤ limit →
      unicodeTruncate w limit s = s := by
  intro limit s
  induction s generalizing limit with
  | nil => intro _; simp [unicodeTruncate]
  | cons c cs ih =>
    intro h
    simp only [widthSum, List.map_cons, List.sum_cons] at h
    have hc : w c ≤ limit := by omega
    have hcs : widthSum w cs ≤ limit - w c := by
      simp only [widthSum]; omega
    simp [unicodeTruncate, if_pos hc, ih _ hcs]

theorem unicodeTruncate_append (w : Char → Nat) :
    ∀ (limit : Nat) (s : List Char),
      ∃ rest, unicodeTruncate w limit s ++ rest = s := by
  intro limit s
  induction s generalizing limit with
  | nil => exact ⟨[], rfl⟩
  | cons c cs ih =>
    by_cases h : w c ≤ limit
    · obtain ⟨rest, hrest⟩ := ih (limit - w c)
      exact ⟨rest, by simp [unicodeTruncate, if_pos h, hrest]⟩
    · exact ⟨c :: cs, by simp [unicodeTruncate, if_neg h]⟩

theorem takeWhile_eq_self_of_all {p : Char → Bool} :
    ∀ {s : List Char}, (∀ c ∈ s, p c = true) → s.takeWhile p = s := by
  intro s h
  induction s with
  | nil => rfl
  | cons c cs ih =>
    have hc : p c = true := h c (List.mem_cons_self c cs)
    simp [List.takeWhile, hc, ih (fun x hx => h x (List.mem_cons_of_mem c hx))]

theorem firstLine_of_no_newline {s : List Char} (h : '\n' ∉ s) :
    firstLine s = s := by
  have hall : ∀ c ∈ s, (c != '\n') = true := by
    intro c hc
    have : c ≠ '\n' := fun he => h (he ▸ hc)
    simpa using this
  simp [firstLine, takeWhile_eq_self_of_all hall]

/-! ## Lemmas about batch resolution -/

/-- Placeholder commit used only to state equations under the hypothesis
that every identifier resolves; it is never reached. -/
def dfltRawCommit : RawCommit :=
  { message := [],
    author := { nameValidUtf8 := true, name := [], email := [] },
    time := 0 }

theorem collect_find_all_some (repo : Repo) :
    ∀ (ids : List CommitId), (∀ i ∈ ids, (repo i).isSome) →
      collectResults (ids.map (find_commit repo)) =
        .ok (ids.map (fun i => (i, (repo i).getD dfltRawCommit))) := by
  intro ids h
  induction ids with
  | nil => rfl
  | cons i rest ih =>
    have hi : (repo i).isSome := h i (List.mem_cons_self i rest)
    obtain ⟨c, hc⟩ := Option.isSome_iff_exists.mp hi
    have htail := ih (fun j hj => h j (List.mem_cons_of_mem i hj))
    simp [find_commit, hc, collectResults, htail, Except.map]

theorem collect_find_error (repo : Repo) :
    ∀ (ids : List CommitId), (∃ i ∈ ids, repo i = none) →
      collectResults (ids.map (find_commit repo)) =
        .error GitError.objectNotFound := by
  intro ids h
  induction ids with
  | nil => obtain ⟨i, hi, _⟩ := h; cases hi
  | cons j rest ih =>
    obtain ⟨i, hi, hnone⟩ := h
    rcases List.mem_cons.mp hi with heq | hmem
    · subst heq
      simp [find_commit, hnone, collectResults]
    · cases hj : repo j with
      | none => simp [find_commit, hj, collectResults]
      | some c =>
        have htail := ih ⟨i, hmem, hnone⟩
        simp [find_commit, hj, collectResults, htail, Except.map]

theorem collect_find_ok_pairs (repo : Repo) :
    ∀ (ids : List CommitId) (ps : List (CommitId × RawCommit)),
      collectResults (ids.map (find_commit repo)) = .ok ps →
      ps.map Prod.fst = ids := by
  intro ids
  induction ids with
  | nil =>
    intro ps h
    simp only [List.map_nil, collectResults] at h
    cases h
    rfl
  | cons i rest ih =>
    intro ps h
    cases hi : repo i with
    | none =>
      simp [find_commit, hi, collectResults] at h
    | some c =>
      simp only [List.map_cons, find_commit, hi, collectResults] at h
      cases htail : collectResults (rest.map (find_commit repo)) with
      | error e => rw [htail] at h; simp [Except.map] at h
      | ok qs =>
        rw [htail] at h
        simp only [Except.map] at h
        cases h
        simp [ih qs htail]

/-- Under the all-resolve hypothesis, batch resolution is the plain map of
per-identifier record construction over the input list. -/
theorem get_commits_info_eq_map (repo : Repo) (mm : Mailmap)
    (ids : List CommitId) (limit : Nat) (w : Char → Nat)
    (h : ∀ i ∈ ids, (repo i).isSome) :
    get_commits_info repo mm ids limit w =
      .ok (ids.map (fun i =>
        toCommitInfo mm limit w i ((repo i).getD dfltRawCommit))) := by
  simp [get_commits_info, collect_find_all_some repo ids h, List.map_map,
    Function.comp]

deriving instance DecidableEq for Except

/-! ## Concrete repository states used to instantiate the theorems -/

/-- A width table assigning one column to every character. -/
def exW : Char → Nat := fun _ => 1

/-- The all-zero identifier. -/
def exId : CommitId := ⟨⟨List.replicate 20 0, by decide⟩⟩

/-- An identifier distinct from `exId`. -/
def exId2 : CommitId := ⟨⟨List.replicate 20 1, by decide⟩⟩

/-- A plain single-line commit. -/
def exCommit : RawCommit :=
  { message := "hi".toList,
    author := { nameValidUtf8 := true, name := "alice".toList,
                email := "alice@example.com".toList },
    time := 7 }

/-- A repository holding exactly `exCommit` at `exId`. -/
def exRepo : Repo := fun i => if i = exId then some exCommit else none

/-- A commit with a two-line message. -/
def exCommitMulti : RawCommit :=
  { message := "subject\nbody".toList,
    author := { nameValidUtf8 := true, name := "alice".toList,
                email := "alice@example.com".toList },
    time := 3 }

/-- A repository holding exactly `exCommitMulti` at `exId`. -/
def exRepoMulti : Repo :=
  fun i => if i = exId then some exCommitMulti else none

/-- A commit whose author name is present (valid UTF-8) but empty. -/
def exCommitEmptyName : RawCommit :=
  { message := "msg".toList,
    author := { nameValidUtf8 := true, name := [],
                email := "e@example.com".toList },
    time := 1 }

/-- A repository holding exactly `exCommitEmptyName` at `exId`. -/
def exRepoEmptyName : Repo :=
  fun i => if i = exId then some exCommitEmptyName else none

/-- A commit whose raw author name bytes are not valid UTF-8: `name`
holds the lossy rendering (the bad byte shows as the replacement
character) and `nameValidUtf8 = false` records that git2's
`Signature::name()` returns `None` for it. -/
def exCommitInvalidName : RawCommit :=
  { message := "msg".toList,
    author := { nameValidUtf8 := false, name := "b�b".toList,
                email := "e@example.com".toList },
    time := 2 }

/-- A repository holding exactly `exCommitInvalidName` at `exId`. -/
def exRepoInvalidName : Repo :=
  fun i => if i = exId then some exCommitInvalidName else none

/-! ## Claim theorems -/

/-- C2: if any identifier in the list does not resolve to an object, the
entire batch resolution call returns an error, carrying no records at all
for the identifiers that did exist. -/
theorem batch_fail_fast (repo : Repo) (mm : Mailmap) (ids : List CommitId)
    (limit : Nat) (w : Char → Nat) (h : ∃ i ∈ ids, repo i = none) :
    get_commits_info repo mm ids limit w =
      .error GitError.objectNotFound := by
  simp [get_commits_info, collect_find_error repo ids h]

theorem batch_fail_fast_witness :
    get_commits_info exRepo [] [exId, exId2] 50 exW =
      .error GitError.objectNotFound :=
  batch_fail_fast exRepo [] [exId, exId2] 50 exW
    ⟨exId2, by decide, by decide⟩

/-- C3: when every identifier resolves (duplicates allowed), batch
resolution returns exactly the map of per-identifier record construction
over the input list: one record per input identifier, in input order. -/
theorem batch_preserves_order (repo : Repo) (mm : Mailmap)
    (ids : List CommitId) (limit : Nat) (w : Char → Nat)
    (h : ∀ i ∈ ids, (repo i).isSome) :
    get_commits_info repo mm ids limit w =
      .ok (ids.map (fun i =>
        toCommitInfo mm limit w i ((repo i).getD dfltRawCommit))) :=
  get_commits_info_eq_map repo mm ids limit w h

theorem batch_preserves_order_witness :
    get_commits_info exRepo [] [exId, exId] 50 exW =
      .ok ([exId, exId].map (fun i =>
        toCommitInfo [] 50 exW i ((exRepo i).getD dfltRawCommit))) :=
  batch_preserves_order exRepo [] [exId, exId] 50 exW (by decide)

/-- C10: whenever batch resolution succeeds, the `id` field of the record
at each position is exactly the input identifier at that position. -/
theorem batch_returns_input_ids (repo : Repo) (mm : Mailmap)
    (ids : List CommitId) (limit : Nat) (w : Char → Nat)
    (l : List CommitInfo)
    (h : get_commits_info repo mm ids limit w = .ok l) :
    l.map CommitInfo.id = ids := by
  unfold get_commits_info at h
  cases hc : collectResults (ids.map (find_commit repo)) with
  | error e => rw [hc] at h; cases h
  | ok ps =>
    rw [hc] at h
    cases h
    rw [List.map_map]
    have hfst :
        (CommitInfo.id ∘ fun ic : CommitId × RawCommit =>
          toCommitInfo mm limit w ic.1 ic.2) = Prod.fst := rfl
    rw [hfst, collect_find_ok_pairs repo ids ps hc]

theorem batch_returns_input_ids_witness :
    ([⟨"hi".toList, 7, "alice".toList, exId⟩] : List CommitInfo).map
      CommitInfo.id = [exId] :=
  batch_returns_input_ids exRepo [] [exId] 50 exW
    [⟨"hi".toList, 7, "alice".toList, exId⟩] (by decide)

/-- C4: for every width table, message and limit, the limited format is a
whole-character prefix of the first line whose total display width never
exceeds the limit; and when the trimmed message is single-line and already
fits, the limited format coincides with the unlimited one. -/
theorem message_format_width (w : Char → Nat) (msg : List Char)
    (limit : Nat) :
    widthSum w (get_message w msg (some limit)) ≤ limit ∧
    (∃ rest, get_message w msg (some limit) ++ rest =
      firstLine (trim msg)) ∧
    ('\n' ∉ trim msg → widthSum w (trim msg) ≤ limit →
      get_message w msg (some limit) = get_message w msg none) := by
  refine ⟨?_, ?_, ?_⟩
  · exact unicodeTruncate_width_le w limit (firstLine (trim msg))
  · exact unicodeTruncate_append w limit (firstLine (trim msg))
  · intro h1 h2
    have hfl := firstLine_of_no_newline h1
    simp only [get_message, hfl]
    exact unicodeTruncate_of_width_le w limit (trim msg) h2

theorem message_format_width_witness :
    widthSum exW (get_message exW "  hi there  ".toList (some 50)) ≤ 50 ∧
    (∃ rest, get_message exW "  hi there  ".toList (some 50) ++ rest =
      firstLine (trim "  hi there  ".toList)) ∧
    get_message exW "  hi there  ".toList (some 50) =
      get_message exW "  hi there  ".toList none := by
  obtain ⟨h1, h2, h3⟩ := message_format_width exW "  hi there  ".toList 50
  exact ⟨h1, h2, h3 (by decide) (by decide)⟩

/-- C5: converting a `CommitId` to the gix representation and back
reproduces the original identifier exactly, and likewise starting from the
gix representation. -/
theorem commitId_gix_roundtrip :
    (∀ id : CommitId,
      (gix_from_commitId id).bind commitId_from_gix = some id) ∧
    (∀ g : GixObjectId,
      (commitId_from_gix g).bind gix_from_commitId = some g) := by
  constructor
  · rintro ⟨⟨b, hb⟩⟩
    simp [gix_from_commitId, GixObjectId.from_bytes_or_panic,
      commitId_from_gix, Oid.from_bytes, hb]
  · rintro ⟨b, hb⟩
    simp [commitId_from_gix, Oid.from_bytes, gix_from_commitId,
      GixObjectId.from_bytes_or_panic, hb]

/-- C8: both identifier conversions always succeed — the `expect` branch of
the gix-to-git2 direction and the panicking branch of the reverse
direction are unreachable, because both representations hold exactly
20 bytes. -/
theorem commitId_gix_conversions_total :
    (∀ g : GixObjectId, (commitId_from_gix g).isSome = true) ∧
    (∀ id : CommitId, (gix_from_commitId id).isSome = true) := by
  constructor
  · rintro ⟨b, hb⟩
    simp [commitId_from_gix, Oid.from_bytes, hb]
  · rintro ⟨⟨b, hb⟩⟩
    simp [gix_from_commitId, GixObjectId.from_bytes_or_panic, hb]

/-- C9: supplying an explicit log-file path by itself enables file
logging: whenever `--logfile` is present, logging is set up on that path,
whatever the state of the `--logging` flag. -/
theorem logfile_implies_logging (cache_dir : List Char) (m : ArgMatches)
    (p : List Char) (h : m.logfile = some p) :
    process_cmdline_logging cache_dir m = some p := by
  simp [process_cmdline_logging, get_flag_logging, h, setup_logging_path]

theorem logfile_implies_logging_witness :
    process_cmdline_logging "cache".toList
      ⟨false, some "my.log".toList⟩ = some "my.log".toList :=
  logfile_implies_logging "cache".toList ⟨false, some "my.log".toList⟩
    "my.log".toList rfl

/-- C6 counterexample: a commit whose author name is present but empty
(valid UTF-8, zero characters) and matched by no mailmap entry resolves to
the empty author string, not to the literal `<unknown>`: the placeholder
is used only when the name is absent. -/
theorem batch_author_empty_name_counterexample :
    (get_commits_info exRepoEmptyName [] [exId] 50 exW).map
      (List.map CommitInfo.author) = .ok [[]] ∧
    ([] : List Char) ≠ unknownAuthor := by decide

/-- C6 (amended): the author field is the mailmap-resolved canonical name
when the mailmap matches the raw author identity; otherwise the raw author
name; and when that name is absent (the raw bytes are not decodable), the
literal `<unknown>` — an empty-but-present name is kept as is. -/
theorem batch_author_resolution (repo : Repo) (mm : Mailmap)
    (ids : List CommitId) (limit : Nat) (w : Char → Nat)
    (h : ∀ i ∈ ids, (repo i).isSome) :
    (get_commits_info repo mm ids limit w).map
      (List.map CommitInfo.author) =
      .ok (ids.map (fun i =>
        let a := ((repo i).getD dfltRawCommit).author
        match mailmapResolve mm a.name a.email with
        | some p => p.1
        | none => if a.nameValidUtf8 then a.name else unknownAuthor)) := by
  rw [get_commits_info_eq_map repo mm ids limit w h]
  simp only [Except.map, List.map_map]
  refine congrArg Except.ok (List.map_congr_left ?_)
  intro i _
  simp only [Function.comp]
  set a := ((repo i).getD dfltRawCommit).author with ha
  cases hr : mailmapResolve mm a.name a.email with
  | some p =>
    simp [toCommitInfo, get_author_of_commit, ← ha, hr, signature_name]
  | none =>
    cases hv : a.nameValidUtf8 <;>
      simp [toCommitInfo, get_author_of_commit, ← ha, hr, signature_name,
        hv]

theorem batch_author_resolution_witness :
    (get_commits_info exRepo [] [exId] 50 exW).map
      (List.map CommitInfo.author) =
      .ok ([exId].map (fun i =>
        let a := ((exRepo i).getD dfltRawCommit).author
        match mailmapResolve [] a.name a.email with
        | some p => p.1
        | none => if a.nameValidUtf8 then a.name else unknownAuthor)) :=
  batch_author_resolution exRepo [] [exId] 50 exW (by decide)

/-- The mailmap-independent part of a record: message, time and id. -/
def commitFrame (r : CommitInfo) : List Char × Int × CommitId :=
  (r.message, r.time, r.id)

/-- Whatever the two mailmaps, batch resolution produces the same error or
records with the same message, time and id: only the author field can
depend on the mailmap. -/
theorem get_commits_info_frame (repo : Repo) (ids : List CommitId)
    (limit : Nat) (w : Char → Nat) (mm1 mm2 : Mailmap) :
    (get_commits_info repo mm1 ids limit w).map (List.map commitFrame) =
      (get_commits_info repo mm2 ids limit w).map
        (List.map commitFrame) := by
  unfold get_commits_info
  cases hc : collectResults (ids.map (find_commit repo)) with
  | error e => rfl
  | ok ps =>
    simp only [Except.map, List.map_map]
    exact congrArg Except.ok (List.map_congr_left (fun p _ => rfl))

/-- Whatever the two mailmaps, single resolution produces the same error
or a record with the same message, time and id. -/
theorem get_commit_info_frame (repo : Repo) (id : CommitId)
    (w : Char → Nat) (mm1 mm2 : Mailmap) :
    (get_commit_info repo mm1 id w).map commitFrame =
      (get_commit_info repo mm2 id w).map commitFrame := by
  unfold get_commit_info
  cases hc : repo id with
  | none => rfl
  | some c => simp [Except.map, commitFrame]

/-- C7 counterexample: with no mailmap present, a commit whose raw author
name bytes are not valid UTF-8 resolves on the batch path to the literal
`<unknown>` placeholder, not to the commit's raw author name. -/
theorem no_mailmap_unknown_author_counterexample :
    (get_commits_info exRepoInvalidName [] [exId] 50 exW).map
      (List.map CommitInfo.author) = .ok [unknownAuthor] ∧
    unknownAuthor ≠ exCommitInvalidName.author.name := by decide

/-- C7 (amended): against fixed object state, changing only the mailmap
changes at most the author field of each record produced by either path —
message, time and id are unchanged, unconditionally; and with no mailmap
present, the author field equals each commit's raw author name whenever
that name is decodable — an undecodable raw name resolves to `<unknown>`
on the batch path, while the single path always renders the raw bytes. -/
theorem mailmap_frame_effect (repo : Repo) (ids : List CommitId)
    (limit : Nat) (w : Char → Nat) (mm1 mm2 : Mailmap) (id : CommitId) :
    ((get_commits_info repo mm1 ids limit w).map (List.map commitFrame) =
      (get_commits_info repo mm2 ids limit w).map
        (List.map commitFrame)) ∧
    ((get_commit_info repo mm1 id w).map commitFrame =
      (get_commit_info repo mm2 id w).map commitFrame) ∧
    ((∀ i ∈ ids, (repo i).isSome) →
      (∀ i ∈ ids,
        ((repo i).getD dfltRawCommit).author.nameValidUtf8 = true) →
      (get_commits_info repo [] ids limit w).map
        (List.map CommitInfo.author) =
        .ok (ids.map (fun i =>
          ((repo i).getD dfltRawCommit).author.name))) ∧
    ((repo id).isSome →
      (get_commit_info repo [] id w).map CommitInfo.author =
        .ok ((repo id).getD dfltRawCommit).author.name) := by
  refine ⟨get_commits_info_frame repo ids limit w mm1 mm2,
    get_commit_info_frame repo id w mm1 mm2, ?_, ?_⟩
  · intro h1 h2
    rw [get_commits_info_eq_map repo [] ids limit w h1]
    simp only [Except.map, List.map_map]
    refine congrArg Except.ok (List.map_congr_left ?_)
    intro i hi
    simp [Function.comp, toCommitInfo, get_author_of_commit,
      mailmapResolve, signature_name, h2 i hi]
  · intro hid
    obtain ⟨c, hc⟩ := Option.isSome_iff_exists.mp hid
    simp [get_commit_info, hc, mailmapResolve, Except.map]

theorem mailmap_frame_effect_witness :
    ((get_commits_info exRepo [⟨"n".toList, "e".toList, none,
        "x".toList⟩] [exId] 50 exW).map (List.map commitFrame) =
      (get_commits_info exRepo [] [exId] 50 exW).map
        (List.map commitFrame)) ∧
    ((get_commit_info exRepo [⟨"n".toList, "e".toList, none,
        "x".toList⟩] exId exW).map commitFrame =
      (get_commit_info exRepo [] exId exW).map commitFrame) ∧
    ((get_commits_info exRepo [] [exId] 50 exW).map
      (List.map CommitInfo.author) =
      .ok ([exId].map (fun i =>
        ((exRepo i).getD dfltRawCommit).author.name))) ∧
    ((get_commit_info exRepo [] exId exW).map CommitInfo.author =
      .ok ((exRepo exId).getD dfltRawCommit).author.name) := by
  obtain ⟨h1, h2, h3, h4⟩ := mailmap_frame_effect exRepo [exId] 50 exW
    [⟨"n".toList, "e".toList, none, "x".toList⟩] [] exId
  exact ⟨h1, h2, h3 (by decide) (by decide), h4 (by decide)⟩

/-- C1 counterexample: against one and the same repository state and
mailmap, the two backends disagree in two ways. A commit whose message has
two lines is reported with message `subject` by the batch resolver (which
always truncates to the first line) but with the full two-line message by
the single resolver (which applies no limit); and a commit whose raw
author name is not decodable is reported with author `<unknown>` by the
batch resolver but with the lossy-rendered raw name by the single
resolver. -/
theorem cross_backend_counterexample :
    ((get_commits_info exRepoMulti [] [exId] 50 exW).map
      (List.map CommitInfo.message) = .ok ["subject".toList] ∧
     (get_commit_info exRepoMulti [] exId exW).map CommitInfo.message =
       .ok "subject\nbody".toList ∧
     "subject".toList ≠ "subject\nbody".toList) ∧
    ((get_commits_info exRepoInvalidName [] [exId] 50 exW).map
      (List.map CommitInfo.author) = .ok [unknownAuthor] ∧
     (get_commit_info exRepoInvalidName [] exId exW).map
       CommitInfo.author = .ok exCommitInvalidName.author.name ∧
     unknownAuthor ≠ exCommitInvalidName.author.name) := by decide

/-- C1 (amended): for an identifier resolvable through both backends
against identical repository state, both paths succeed and the records
agree fieldwise as follows: the time values are identical; the author
values are identical whenever the raw author name is decodable or the
mailmap matches it (with an undecodable unmatched name the batch path
reports `<unknown>` while the single path renders the raw bytes); and the
message values are identical whenever the trimmed message is a single
line fitting within the batch limit (the batch path always truncates to
the first line and the limit, the single path never does). -/
theorem cross_backend_consistency (repo : Repo) (mm : Mailmap)
    (id : CommitId) (c : RawCommit) (limit : Nat) (w : Char → Nat)
    (hc : repo id = some c) :
    ∃ ra rb, get_commits_info repo mm [id] limit w = .ok [ra] ∧
      get_commit_info repo mm id w = .ok rb ∧
      ra.time = rb.time ∧
      (c.author.nameValidUtf8 = true ∨
        (mailmapResolve mm c.author.name c.author.email).isSome →
        ra.author = rb.author) ∧
      ('\n' ∉ trim c.message → widthSum w (trim c.message) ≤ limit →
        ra.message = rb.message) := by
  have hA : get_commits_info repo mm [id] limit w =
      .ok [toCommitInfo mm limit w id c] := by
    simp [get_commits_info, find_commit, hc, collectResults, Except.map]
  have hmsg : '\n' ∉ trim c.message →
      widthSum w (trim c.message) ≤ limit →
      get_message w c.message (some limit) =
        gix_get_message w c.message none := by
    intro hline hwidth
    have hfl := firstLine_of_no_newline hline
    simp only [get_message, gix_get_message, hfl]
    exact unicodeTruncate_of_width_le w limit (trim c.message) hwidth
  cases hr : mailmapResolve mm c.author.name c.author.email with
  | some p =>
    refine ⟨toCommitInfo mm limit w id c,
      ⟨gix_get_message w c.message none, c.time, p.1, id⟩,
      hA, ?_, rfl, ?_, hmsg⟩
    · simp [get_commit_info, hc, hr]
    · intro _
      simp [toCommitInfo, get_author_of_commit, hr, signature_name]
  | none =>
    refine ⟨toCommitInfo mm limit w id c,
      ⟨gix_get_message w c.message none, c.time, c.author.name, id⟩,
      hA, ?_, rfl, ?_, hmsg⟩
    · simp [get_commit_info, hc, hr]
    · intro hname
      have hv : c.author.nameValidUtf8 = true := by
        rcases hname with hv | habs
        · exact hv
        · simp [hr] at habs
      simp [toCommitInfo, get_author_of_commit, hr, signature_name, hv]

theorem cross_backend_consistency_witness :
    ∃ ra rb, get_commits_info exRepo [] [exId] 50 exW = .ok [ra] ∧
      get_commit_info exRepo [] exId exW = .ok rb ∧
      ra.time = rb.time ∧ ra.author = rb.author ∧
      ra.message = rb.message := by
  obtain ⟨ra, rb, h1, h2, h3, h4, h5⟩ :=
    cross_backend_consistency exRepo [] exId exCommit 50 exW (by decide)
  exact ⟨ra, rb, h1, h2, h3, h4 (Or.inl (by decide)),
    h5 (by decide) (by decide)⟩

end GituiSpec
